import Mathlib

/-!
Verification development for the Modelflow repository.

The definitions below are a shallow embedding of the server code:
  * `src/server/routes/predict.js` (the POST /api/predict/:slug proxy, the
    /api/models CRUD routes, upload slug/api-key generation and the README
    input-schema parser),
  * `src/server/models/Model.js` (the Model document schema),
  * `src/server/config/s3.js` (the local-disk storage shim).

JavaScript values appearing in request bodies are embedded as `JsValue`
(with JS truthiness), Mongo documents as Lean structures, the database as a
`List Model` in insertion order (`findOne` returns the first match), and the
downstream inference call as an explicit `DownstreamOutcome` parameter.
-/

namespace Modelflow

/-- A JavaScript value as it appears in a parsed request/response body.
`undefined` stands for an absent field (the result of `req.body?.x` when the
field is missing). -/
inductive JsValue where
  | undefined
  | null
  | bool (b : Bool)
  | num (n : Int)
  | str (s : String)
  | arr (elems : List JsValue)
  | obj (fields : List (String × JsValue))

/-- JavaScript truthiness (NaN is not modelled; numbers are integers). -/
def truthy : JsValue → Bool
  | .undefined => false
  | .null => false
  | .bool b => b
  | .num n => n != 0
  | .str s => s != ""
  | .arr _ => true
  | .obj _ => true

/-- Array.isArray. -/
def isArray : JsValue → Bool
  | .arr _ => true
  | _ => false

/-- The JavaScript expression a || b. -/
def jsOr (a b : JsValue) : JsValue :=
  if truthy a then a else b

/-- JSON response bodies are association lists of fields, in the order the
object literal lists them; a later entry with the same key overrides an
earlier one, as in a JS object spread. -/
abbrev JsonBody := List (String × JsValue)

/-- Whether a JS object (association list) has a field named k. -/
def hasKey (k : String) (body : JsonBody) : Bool :=
  body.any (fun p => p.1 == k)

/-- Property lookup on a JS object literal: the last entry for a key wins,
matching the semantics of duplicate keys and spreads in object literals. -/
def jsGet (k : String) (body : JsonBody) : Option JsValue :=
  (body.reverse.find? (fun p => p.1 == k)).map (·.2)

/-- The JS `delete obj.k` on an association-list object. -/
def removeKey (k : String) (body : JsonBody) : JsonBody :=
  body.filter (fun p => p.1 != k)

/-- One entry of a Model's inputSchema: src/server/models/Model.js,
inputFieldSchema (name, type defaulting to "number", description defaulting
to ""). -/
structure InputField where
  name : String
  type : String
  description : String
deriving Repr, DecidableEq

/-- A Model document, from the schema in src/server/models/Model.js.
`id` stands for the Mongo _id, `userId` for the owning user's _id.
`inputType` is kept as a `String` because the predict handler dispatches on
the raw string with a default arm; `usageCount` is an `Int` (a Mongoose
`Number`), so that its non-negativity is a provable invariant rather than a
typing artifact. Timestamps are not modelled. -/
structure Model where
  id : Nat
  userId : Nat
  name : String
  description : String
  slug : String
  apiKey : String
  s3ModelKey : String
  s3ReadmeKey : Option String
  inputType : String
  outputType : String
  inputSchema : List InputField
  inputCount : Nat
  usageCount : Int
  isPublic : Bool
deriving Repr, DecidableEq

/-- The database of model documents, in insertion order. -/
abbrev Db := List Model

/-- Model.findOne with a slug filter: the first document whose slug matches. -/
def findOne (db : Db) (slug : String) : Option Model :=
  db.find? (fun m => m.slug == slug)

/-- Model.findOne with a slug and userId filter (the delete route). -/
def findOwned (db : Db) (slug : String) (userId : Nat) : Option Model :=
  db.find? (fun m => m.slug == slug && m.userId == userId)

/-- Model.updateOne with a _id filter and a one-step usageCount $inc:
increments the first document whose _id matches. -/
def incUsage : Db → Nat → Db
  | [], _ => []
  | m :: ms, i =>
    if m.id = i then { m with usageCount := m.usageCount + 1 } :: ms
    else m :: incUsage ms i

/-- Model.deleteOne with a _id filter: removes the first matching document. -/
def removeById : Db → Nat → Db
  | [], _ => []
  | m :: ms, i => if m.id = i then ms else m :: removeById ms i

/-- The sum of all usage counters in the database. -/
def sumUsage (db : Db) : Int :=
  (db.map (·.usageCount)).sum

/-- Relevant process environment: INFERENCE_SERVICE_URL and JWT_SECRET. -/
structure Env where
  inferenceServiceUrl : Option String
  jwtSecret : String

/-- The check at the top of the predict route:
`if (!process.env.INFERENCE_SERVICE_URL)`; an unset or empty variable is
falsy. -/
def inferenceConfigured (e : Env) : Bool :=
  match e.inferenceServiceUrl with
  | some u => u != ""
  | none => false

/-- The base64 alphabet used by Buffer.toString("base64"). -/
def b64Char (n : Nat) : Char :=
  "ABCDEFGHIJKLMNOPQRSTUVWXYZabcdefghijklmnopqrstuvwxyz0123456789+/".data.getD n 'A'

/-- Standard base64 of a byte list, with padding, as produced by
Buffer.toString("base64"). -/
def base64Bytes : List Nat → String
  | [] => ""
  | [a] => String.mk [b64Char (a / 4 % 64), b64Char (a % 4 * 16), '=', '=']
  | [a, b] =>
    String.mk [b64Char (a / 4 % 64), b64Char (a % 4 * 16 + b / 16 % 16),
               b64Char (b % 16 * 4), '=']
  | a :: b :: c :: rest =>
    String.mk [b64Char (a / 4 % 64), b64Char (a % 4 * 16 + b / 16 % 16),
               b64Char (b % 16 * 4 + c / 64 % 4), b64Char (c % 64)]
      ++ base64Bytes rest

/-- File contents are embedded as the Lean `String` of their bytes;
buffer.toString("base64") encodes the UTF-8 bytes of that string. -/
def base64Encode (content : String) : String :=
  base64Bytes (content.toUTF8.data.toList.map (·.toNat))

/-- JS String.replace with a string pattern: replaces the first occurrence
only. Used for the model-path rewrite in the predict route. -/
def replaceFirst (s pat rep : String) : String :=
  match s.splitOn pat with
  | [] => s
  | [x] => x
  | x :: xs => x ++ rep ++ String.intercalate pat xs

/-- JS String.toLowerCase restricted to ASCII letters, written over the
character list so that it evaluates by kernel reduction. -/
def lowerStr (s : String) : String :=
  String.mk (s.data.map Char.toLower)

/-- JS String.endsWith, written over the character lists. -/
def endsWithJs (s suffix : String) : Bool :=
  suffix.data.isSuffixOf s.data

/-- JS String.split("\n"): splits at every newline and keeps empty pieces,
including a trailing one. -/
def splitNl : List Char → List Char → List String
  | [], acc => [String.mk acc.reverse]
  | c :: cs, acc =>
    if c = '\n' then String.mk acc.reverse :: splitNl cs []
    else splitNl cs (c :: acc)

/-- The local-disk storage root from src/server/config/s3.js. -/
def UPLOAD_DIR : String := "/home/ubuntu/modelflow/Modelflow/uploads"

/-- getSignedDownloadUrl of the local-disk shim: the joined file path. -/
def getSignedDownloadUrl (key : String) : String :=
  UPLOAD_DIR ++ "/" ++ key

/-- The JSON body fields the predict route reads (`req.body?.x`); a missing
field is `JsValue.undefined`. -/
structure PredictBody where
  image_base64 : JsValue
  text : JsValue
  texts : JsValue
  csv_data : JsValue
  data : JsValue
  inputs : JsValue

/-- A request body with every field absent. -/
def emptyBody : PredictBody :=
  ⟨.undefined, .undefined, .undefined, .undefined, .undefined, .undefined⟩

/-- A POST /api/predict/:slug request. The multer fields "image", "csv" and
"file" each carry at most one file, embedded as its content string; the
X-API-Key header is `none` when absent. -/
structure PredictRequest where
  slug : String
  apiKeyHeader : Option String
  fileImage : Option String
  fileCsv : Option String
  fileFile : Option String
  body : PredictBody

/-- The outcome of the awaited axios.post to the inference service:
`success` carries the downstream JSON object; `httpError` carries
error.response.data of a downstream HTTP error (an empty response body
yields the empty string, which is falsy); `failure` is any other rejection
(timeout, network error, no response). -/
inductive DownstreamOutcome where
  | success (data : JsonBody)
  | httpError (data : JsValue)
  | failure

/-- The observable effects of one predict request: HTTP status, JSON body,
whether the outbound call to the inference service was made, whether the
usage counter update ran, and the resulting database. `payload` is the body
forwarded downstream, when the forward happened. -/
structure PredictResult where
  status : Nat
  body : JsonBody
  forwarded : Bool
  incremented : Bool
  payload : Option JsonBody
  newDb : Db

/-- The input-type switch of the predict route
(src/server/routes/predict.js lines 47 to 86): either a 400 error body or
the type-specific payload fields. -/
def extractInput (m : Model) (req : PredictRequest) : JsonBody ⊕ JsonBody :=
  if m.inputType = "image" then
    let v := jsOr (match req.fileImage with
                   | some content => .str (base64Encode content)
                   | none => .undefined) req.body.image_base64
    if truthy v then .inr [("image_base64", v)]
    else .inl [("error", .str "Image input required")]
  else if m.inputType = "text" then
    if truthy req.body.text then .inr [("text", req.body.text)]
    else .inl [("error", .str "Text input required")]
  else if m.inputType = "multi_text" then
    if isArray req.body.texts then .inr [("texts", req.body.texts)]
    else .inl [("error", .str "Texts array required")]
  else if m.inputType = "csv" then
    let v := jsOr (match req.fileCsv with
                   | some content => .str content
                   | none => .undefined) req.body.csv_data
    if truthy v then .inr [("csv_data", v)]
    else .inl [("error", .str "CSV input required")]
  else if m.inputType = "json" then
    if truthy req.body.data then .inr [("json_data", req.body.data)]
    else .inl [("error", .str "JSON data required")]
  else
    if truthy req.body.inputs then .inr [("inputs", req.body.inputs)]
    else .inl [("error", .str "Numeric inputs required")]

/-- The POST /api/predict/:slug handler (src/server/routes/predict.js lines
20 to 106): configuration check, slug lookup, API-key check, input-type
switch, forward to the inference service, usage increment, response merge,
and the catch block mapping a downstream HTTP error carrying a truthy body
to 502 and everything else to 500. -/
def predictHandler (env : Env) (db : Db) (req : PredictRequest)
    (outcome : DownstreamOutcome) : PredictResult :=
  if inferenceConfigured env = false then
    ⟨500, [("error", .str "Inference service not configured")], false, false, none, db⟩
  else
    match findOne db req.slug with
    | none => ⟨404, [("error", .str "Model not found")], false, false, none, db⟩
    | some m =>
      if req.apiKeyHeader ≠ some m.apiKey then
        ⟨403, [("error", .str "Invalid API key")], false, false, none, db⟩
      else
        let modelPath :=
          replaceFirst (getSignedDownloadUrl m.s3ModelKey)
            "/server/uploads" "/inference/uploads"
        let basePayload : JsonBody :=
          [("model_path", .str modelPath), ("model_key", .str m.slug),
           ("input_type", .str m.inputType), ("output_type", .str m.outputType)]
        match extractInput m req with
        | .inl errBody => ⟨400, errBody, false, false, none, db⟩
        | .inr fields =>
          let payload := basePayload ++ fields
          match outcome with
          | .success data =>
            ⟨200, ("model", .str m.name) :: data, true, true, some payload,
             incUsage db m.id⟩
          | .httpError d =>
            if truthy d then
              ⟨502, [("error", .str "Inference service error"), ("details", d)],
               true, false, some payload, db⟩
            else
              ⟨500, [("error", .str "Prediction failed")], true, false,
               some payload, db⟩
          | .failure =>
            ⟨500, [("error", .str "Prediction failed")], true, false,
             some payload, db⟩

/-- Lowercase hex digits, as produced by Buffer.toString("hex"). -/
def hexDigit (n : Nat) : Char :=
  "0123456789abcdef".data.getD n '0'

/-- Two lowercase hex digits per byte: the character list of
Buffer.toString("hex"). -/
def bytesToHexCs : List Nat → List Char
  | [] => []
  | b :: bs => hexDigit (b % 256 / 16) :: hexDigit (b % 16) :: bytesToHexCs bs

/-- crypto.randomBytes(n).toString("hex") for an explicit byte list. -/
def bytesToHex (bs : List Nat) : String :=
  String.mk (bytesToHexCs bs)

/-- A character kept by the slug regex: the class [a-z0-9] applied after
toLowerCase. -/
def isSlugChar (c : Char) : Bool :=
  c.isLower || c.isDigit

/-- The replace(/[^a-z0-9]+/g, "-") pass of generateSlug: each maximal run
of non-slug characters becomes a single hyphen. The boolean state records
whether the previous character was part of such a run. -/
def collapseGo : List Char → Bool → List Char
  | [], _ => []
  | c :: cs, inRun =>
    if isSlugChar c then c :: collapseGo cs false
    else if inRun then collapseGo cs true
    else '-' :: collapseGo cs true

/-- The replace(/^-|-$/g, "") pass of generateSlug: removes one leading and
one trailing hyphen. -/
def stripEdgeHyphens (s : List Char) : List Char :=
  let s1 := match s with
    | c :: t => if c = '-' then t else s
    | [] => s
  match s1.getLast? with
  | some c => if c = '-' then s1.dropLast else s1
  | none => s1

/-- The slugified name before the random suffix (generateSlug in
src/server/routes/predict.js lines 128 to 137, without the randomBytes
call). -/
def slugBase (name : String) : String :=
  String.mk (stripEdgeHyphens (collapseGo ((lowerStr name).data) false))

/-- generateSlug with the crypto.randomBytes(4) outcome passed explicitly. -/
def generateSlug (name : String) (rand : List Nat) : String :=
  slugBase name ++ "-" ++ bytesToHex rand

/-- generateApiKey with the crypto.randomBytes(24) outcome passed
explicitly. -/
def generateApiKey (rand : List Nat) : String :=
  "mlh_" ++ bytesToHex rand

/-- Splits a character list into its maximal nonempty runs of slug
characters; the accumulator holds the reversed current run. Written from
the claim text for C9: the slug base should be the lowercased name with
every run of non-alphanumeric characters replaced by a single hyphen and
edge hyphens stripped; that equals these runs joined by single hyphens. -/
def alnumWordsGo : List Char → List Char → List (List Char)
  | [], [] => []
  | [], a :: acc => [(a :: acc).reverse]
  | c :: cs, acc =>
    if isSlugChar c then alnumWordsGo cs (c :: acc)
    else
      match acc with
      | [] => alnumWordsGo cs []
      | a :: acc => (a :: acc).reverse :: alnumWordsGo cs []

/-- Joins words with single hyphens. -/
def joinH : List (List Char) → List Char
  | [] => []
  | [w] => w
  | w :: ws => w ++ '-' :: joinH ws

/-- Claim-side slugification: maximal alphanumeric runs of the lowercased
name joined by single hyphens. -/
def slugifySpec (name : String) : String :=
  String.mk (joinH (alnumWordsGo ((lowerStr name).data) []))

/-- The JS \s class, restricted to its ASCII members. -/
def isSpaceJs (c : Char) : Bool :=
  c = ' ' || c = '\t' || c = '\n' || c = '\r' || c.toNat = 11 || c.toNat = 12

/-- The JS \w class: ASCII letters, digits and underscore. -/
def isWordChar (c : Char) : Bool :=
  c.isAlpha || c.isDigit || c = '_'

/-- JS String.trim restricted to ASCII whitespace. -/
def trimJs (s : String) : String :=
  String.mk (((s.data.dropWhile isSpaceJs).reverse.dropWhile isSpaceJs).reverse)

/-- The section-opening test /^#+\s*(inputs?|parameters?|features?)/i of
parseReadmeForInputs: hashes, optional whitespace, then one of the keywords
as a case-insensitive prefix (the optional plural s adds nothing to a prefix
test). -/
def isInputsHeading (line : String) : Bool :=
  match line.data with
  | '#' :: rest =>
    let afterWs := (rest.dropWhile (· = '#')).dropWhile isSpaceJs
    let low := afterWs.map Char.toLower
    "input".data.isPrefixOf low || "parameter".data.isPrefixOf low ||
      "feature".data.isPrefixOf low
  | _ => false

/-- The section-closing test /^#+\s/ of parseReadmeForInputs: hashes
followed by a whitespace character. -/
def isHeadingLine (line : String) : Bool :=
  match line.data with
  | '#' :: rest =>
    match rest.dropWhile (· = '#') with
    | c :: _ => isSpaceJs c
    | [] => false
  | _ => false

/-- Hand-compiled /^[\s]*[-*]\s*(\w+)\s*(?:\((\w+)\))?\s*[:\-]?\s*(.*)/:
returns the captured name, optional parenthesized type, and the raw
description remainder. The only mandatory parts are the bullet marker and a
nonempty word; every later piece is optional, so no backtracking arises. -/
def bulletMatch (line : String) : Option (String × Option String × String) :=
  match line.data.dropWhile isSpaceJs with
  | [] => none
  | c :: rest =>
    if c = '-' || c = '*' then
      let afterMark := rest.dropWhile isSpaceJs
      let nameCs := afterMark.takeWhile isWordChar
      if nameCs.isEmpty then none
      else
        let rest3 := (afterMark.dropWhile isWordChar).dropWhile isSpaceJs
        let (ty, rest4) :=
          match rest3 with
          | '(' :: t =>
            let w := t.takeWhile isWordChar
            if w.isEmpty then (none, rest3)
            else
              match t.dropWhile isWordChar with
              | ')' :: u => (some (String.mk w), u)
              | _ => (none, rest3)
          | _ => (none, rest3)
        let rest5 := rest4.dropWhile isSpaceJs
        let rest6 :=
          match rest5 with
          | c2 :: t2 => if c2 = ':' || c2 = '-' then t2 else rest5
          | [] => rest5
        some (String.mk nameCs, ty, String.mk (rest6.dropWhile isSpaceJs))
    else none

/-- Hand-compiled /^\|?\s*(\w+)\s*\|\s*(\w+)\s*\|\s*(.*?)\s*\|?$/: optional
leading pipe, name cell, type cell, then the lazily-matched description,
which is the remainder with one trailing pipe and trailing whitespace
removed. -/
def tableMatch (line : String) : Option (String × String × String) :=
  let cs1 := match line.data with
    | '|' :: t => t
    | cs => cs
  let cs2 := cs1.dropWhile isSpaceJs
  let nameCs := cs2.takeWhile isWordChar
  if nameCs.isEmpty then none
  else
    match (cs2.dropWhile isWordChar).dropWhile isSpaceJs with
    | '|' :: cs4a =>
      let cs4 := cs4a.dropWhile isSpaceJs
      let tyCs := cs4.takeWhile isWordChar
      if tyCs.isEmpty then none
      else
        match (cs4.dropWhile isWordChar).dropWhile isSpaceJs with
        | '|' :: cs6a =>
          let r := cs6a.dropWhile isSpaceJs
          let desc :=
            match r.getLast? with
            | some '|' => (r.dropLast.reverse.dropWhile isSpaceJs).reverse
            | _ => (r.reverse.dropWhile isSpaceJs).reverse
          some (String.mk nameCs, String.mk tyCs, String.mk desc)
        | _ => none
    | _ => none

/-- The empty-string default of the JS a || "dflt" idiom on strings. -/
def jsStrDefault (s d : String) : String :=
  if s = "" then d else s

/-- The table-row branch of the in-section loop body: skip separator rows
and a header row whose first cell is "name" (case-insensitive). -/
def tableEntry (line : String) : Option InputField :=
  match tableMatch line with
  | some (n, ty, d) =>
    if n ≠ "---" && lowerStr n ≠ "name" then
      some ⟨n, jsStrDefault ty "number", trimJs d⟩
    else none
  | none => none

/-- The loop body applied to one in-section line: the bullet pattern is
tried first, the table pattern otherwise; the type defaults to "number" and
the description(trimmed) to "". -/
def sectionLineEntry (line : String) : Option InputField :=
  match bulletMatch line with
  | some (n, ty, d) =>
    if n ≠ "---" then
      some ⟨n, (match ty with | some t => jsStrDefault t "number" | none => "number"),
            trimJs d⟩
    else tableEntry line
  | none => tableEntry line

/-- The line loop of parseReadmeForInputs with its inInputSection state. -/
def parseLines : List String → Bool → List InputField
  | [], _ => []
  | l :: ls, inSec =>
    if isInputsHeading l then parseLines ls true
    else if inSec && isHeadingLine l then parseLines ls false
    else if inSec then (sectionLineEntry l).toList ++ parseLines ls true
    else parseLines ls false

/-- parseReadmeForInputs (src/server/routes/predict.js lines 143 to 185):
a pure function from README text to the extracted input schema. -/
def parseReadmeForInputs (content : String) : List InputField :=
  parseLines (splitNl content.data []) false

/-- Claim-side annotation of each line with whether it lies strictly between
an Inputs/Parameters/Features heading and the next heading (heading lines
themselves excluded). -/
def sectionFlags : List String → Bool → List (String × Bool)
  | [], _ => []
  | l :: ls, inSec =>
    if isInputsHeading l then (l, false) :: sectionFlags ls true
    else if inSec && isHeadingLine l then (l, false) :: sectionFlags ls false
    else (l, inSec) :: sectionFlags ls inSec

/-- A multer in-memory file: its original name and its content (bytes
embedded as a string). -/
structure UploadedFile where
  originalname : String
  content : String
deriving Repr, DecidableEq

/-- A POST /api/models request after authentication. `name`, `description`,
`inputType` and `outputType` are the multipart text fields (`none` when
absent); `readmeFile` is the optional README content; `inputSchemaBody` is
`some l` when body.inputSchema was provided and JSON.parse succeeded on it,
and `none` when it was absent or unparseable (both leave the README-derived
schema in place). -/
structure UploadRequest where
  name : Option String
  description : Option String
  inputType : Option String
  outputType : Option String
  modelFile : Option UploadedFile
  readmeFile : Option String
  inputSchemaBody : Option (List InputField)
deriving Repr, DecidableEq

/-- The observable outcome of one upload request. -/
structure UploadResult where
  status : Nat
  body : JsonBody
  newDb : Db

/-- Truthiness of an optional string field ("" and absent are falsy). -/
def truthyStrOpt (o : Option String) : Bool :=
  match o with
  | some s => s != ""
  | none => false

/-- The x || "default" idiom on an optional string field. -/
def jsStrOr (o : Option String) (d : String) : String :=
  match o with
  | some s => jsStrDefault s d
  | none => d

/-- A Model's inputSchema rendered into a JSON response. -/
def encodeSchema (l : List InputField) : JsValue :=
  .arr (l.map fun f =>
    .obj [("name", .str f.name), ("type", .str f.type),
          ("description", .str f.description)])

/-- The POST /api/models upload handler (src/server/routes/predict.js lines
188 to 257) with the Mongo _id and the two crypto.randomBytes outcomes
passed explicitly. The multer fileFilter rejection of a non-.h5 model file
surfaces as the global 500 handler of server.js; a duplicate slug or apiKey
makes Model.create throw against the unique indexes, which the catch block
maps to 500. -/
def uploadHandler (db : Db) (req : UploadRequest) (newId : Nat)
    (rand4 rand24 : List Nat) (userId : Nat) : UploadResult :=
  match req.modelFile with
  | none => ⟨400, [("error", .str "Model name and .h5 file are required")], db⟩
  | some f =>
    if ¬ endsWithJs f.originalname ".h5" then
      ⟨500, [("error", .str "Internal Server Error")], db⟩
    else if truthyStrOpt req.name = false then
      ⟨400, [("error", .str "Model name and .h5 file are required")], db⟩
    else
      let nm := req.name.getD ""
      let slug := generateSlug nm rand4
      let apiKey := generateApiKey rand24
      let modelKey := "models/" ++ slug ++ "/" ++ f.originalname
      let readmeKey := req.readmeFile.map (fun _ => "models/" ++ slug ++ "/README.md")
      let schemaFromReadme :=
        match req.readmeFile with
        | some content => parseReadmeForInputs content
        | none => []
      let inputSchema :=
        match req.inputSchemaBody with
        | some l => l
        | none => schemaFromReadme
      if db.any (fun m => m.slug == slug || m.apiKey == apiKey) then
        ⟨500, [("error", .str "Failed to upload model")], db⟩
      else
        let m : Model :=
          { id := newId, userId := userId, name := nm,
            description := req.description.getD "",
            slug := slug, apiKey := apiKey, s3ModelKey := modelKey,
            s3ReadmeKey := readmeKey,
            inputType := jsStrOr req.inputType "numeric",
            outputType := jsStrOr req.outputType "classification",
            inputSchema := inputSchema, inputCount := inputSchema.length,
            usageCount := 0, isPublic := true }
        ⟨201,
         [("_id", .num newId), ("name", .str nm), ("slug", .str slug),
          ("apiKey", .str apiKey), ("apiUrl", .str ("/api/predict/" ++ slug)),
          ("inputType", .str m.inputType), ("outputType", .str m.outputType),
          ("inputSchema", encodeSchema inputSchema),
          ("message", .str "Model uploaded successfully")],
         db ++ [m]⟩

/-- A GET /api/models/:slug request: the slug parameter and the token
cookie (`none` when absent). -/
structure FetchRequest where
  slug : String
  cookieToken : Option String

/-- model.toObject() after select("-s3ModelKey"): every schema field except
the weights storage key. The populated userId is represented by the owning
user's _id. Timestamps are not modelled. -/
def modelResultFields (m : Model) : JsonBody :=
  [("_id", .num m.id), ("userId", .num m.userId), ("name", .str m.name),
   ("description", .str m.description), ("slug", .str m.slug),
   ("apiKey", .str m.apiKey)]
  ++ (match m.s3ReadmeKey with
      | some k => [("s3ReadmeKey", .str k)]
      | none => [])
  ++ [("inputType", .str m.inputType), ("outputType", .str m.outputType),
      ("inputSchema", encodeSchema m.inputSchema),
      ("inputCount", .num m.inputCount), ("usageCount", .num m.usageCount),
      ("isPublic", .bool m.isPublic)]

/-- The GET /api/models/:slug handler (src/server/routes/predict.js lines
286 to 316). `verify` stands for jwt.verify: given a token and the secret it
returns the signed userId, or `none` when verification throws. The apiKey
field is deleted unless a truthy token cookie verifies to the owner's id. -/
def getModelBySlug (env : Env) (verify : String → String → Option Nat)
    (db : Db) (req : FetchRequest) : Nat × JsonBody :=
  match findOne db req.slug with
  | none => (404, [("error", .str "Model not found")])
  | some m =>
    let result := modelResultFields m
    let keep : Bool :=
      match req.cookieToken with
      | none => false
      | some tok =>
        if tok = "" then false
        else
          match verify tok env.jwtSecret with
          | some uid => uid == m.userId
          | none => false
    (200, if keep then result else removeKey "apiKey" result)

/-- The database row plus the set of storage keys present on disk. -/
structure SysState where
  db : Db
  store : List String
deriving Repr, DecidableEq

/-- The DELETE /api/models/:slug handler (src/server/routes/predict.js
lines 334 to 355) as the sequence of states after each awaited step: the
initial state, the state after deleteFromS3 of the weights key, the state
after deleteFromS3 of the README key when present, and the state after
Model.deleteOne. deleteFromS3 unlinks the file at the key's path. -/
def deleteModelTrace (s : SysState) (slug : String) (userId : Nat) :
    List SysState :=
  match findOwned s.db slug userId with
  | none => [s]
  | some m =>
    let s1 : SysState := ⟨s.db, s.store.filter (fun k => k ≠ m.s3ModelKey)⟩
    match m.s3ReadmeKey with
    | some rk =>
      let s2 : SysState := ⟨s1.db, s1.store.filter (fun k => k ≠ rk)⟩
      [s, s1, s2, ⟨removeById s2.db m.id, s2.store⟩]
    | none => [s, s1, ⟨removeById s1.db m.id, s1.store⟩]

/-- The database effect of the DELETE /api/models/:slug handler. -/
def deleteDb (db : Db) (slug : String) (userId : Nat) : Db :=
  match findOwned db slug userId with
  | some m => removeById db m.id
  | none => db

/-- One API operation that can touch the models collection. The read-only
routes are carried so that the invariant speaks about every route. -/
inductive Op where
  | upload (req : UploadRequest) (newId : Nat) (rand4 rand24 : List Nat)
      (userId : Nat)
  | predict (env : Env) (req : PredictRequest) (outcome : DownstreamOutcome)
  | listPublic
  | listMine (userId : Nat)
  | fetchBySlug (slug : String)
  | fetchReadme (slug : String)
  | deleteModel (slug : String) (userId : Nat)

/-- The database after one operation. The four GET routes issue no writes,
so their effect is the identity. -/
def applyOp (db : Db) : Op → Db
  | .upload req newId r4 r24 uid => (uploadHandler db req newId r4 r24 uid).newDb
  | .predict env req outcome => (predictHandler env db req outcome).newDb
  | .listPublic => db
  | .listMine _ => db
  | .fetchBySlug _ => db
  | .fetchReadme _ => db
  | .deleteModel slug uid => deleteDb db slug uid

/-- Databases reachable from the empty collection through the API. -/
inductive Reachable : Db → Prop where
  | init : Reachable []
  | step (op : Op) {db : Db} : Reachable db → Reachable (applyOp db op)

/-! Concrete fixtures used by the witness theorems. -/

/-- An environment with the inference service configured. -/
def envOk : Env := ⟨some "http://inference.local:8000", "jwtsecret"⟩

/-- A stored text model owned by user 7. -/
def textModel : Model :=
  { id := 1, userId := 7, name := "Sentiment", description := "demo",
    slug := "sentiment-0a1b2c3d", apiKey := "mlh_k1",
    s3ModelKey := "models/sentiment-0a1b2c3d/model.h5",
    s3ReadmeKey := none, inputType := "text", outputType := "classification",
    inputSchema := [], inputCount := 0, usageCount := 3, isPublic := true }

/-- A one-model database. -/
def dbOne : Db := [textModel]

/-- A predict request with no files and the given body. -/
def jsonReq (slug : String) (key : Option String) (body : PredictBody) :
    PredictRequest :=
  ⟨slug, key, none, none, none, body⟩

/-- The request-lacks-the-required-field condition of claim C1, by input
type: image needs a multipart image or file or a JSON image_base64; text
needs text; multi_text needs texts to be an array; csv needs a multipart
csv or file or a JSON csv_data; json needs data; numeric and every other
input type need inputs. -/
def lacksRequiredInput (m : Model) (req : PredictRequest) : Prop :=
  if m.inputType = "image" then
    req.fileImage = none ∧ req.fileFile = none ∧ req.body.image_base64 = .undefined
  else if m.inputType = "text" then req.body.text = .undefined
  else if m.inputType = "multi_text" then isArray req.body.texts = false
  else if m.inputType = "csv" then
    req.fileCsv = none ∧ req.fileFile = none ∧ req.body.csv_data = .undefined
  else if m.inputType = "json" then req.body.data = .undefined
  else req.body.inputs = .undefined

/-- A request lacking the required input makes the input switch return a
400 error body. -/
lemma extractInput_of_lacks (m : Model) (req : PredictRequest)
    (h : lacksRequiredInput m req) : ∃ e, extractInput m req = Sum.inl e := by
  unfold lacksRequiredInput at h
  unfold extractInput
  by_cases h1 : m.inputType = "image"
  · rw [if_pos h1] at h ⊢
    obtain ⟨hi, _, hb⟩ := h
    exact ⟨[("error", .str "Image input required")], by simp [hi, hb, jsOr, truthy]⟩
  rw [if_neg h1] at h ⊢
  by_cases h2 : m.inputType = "text"
  · rw [if_pos h2] at h ⊢
    exact ⟨[("error", .str "Text input required")], by simp [h, truthy]⟩
  rw [if_neg h2] at h ⊢
  by_cases h3 : m.inputType = "multi_text"
  · rw [if_pos h3] at h ⊢
    exact ⟨[("error", .str "Texts array required")], by simp [h]⟩
  rw [if_neg h3] at h ⊢
  by_cases h4 : m.inputType = "csv"
  · rw [if_pos h4] at h ⊢
    obtain ⟨hc, _, hb⟩ := h
    exact ⟨[("error", .str "CSV input required")], by simp [hc, hb, jsOr, truthy]⟩
  rw [if_neg h4] at h ⊢
  by_cases h5 : m.inputType = "json"
  · rw [if_pos h5] at h ⊢
    exact ⟨[("error", .str "JSON data required")], by simp [h, truthy]⟩
  rw [if_neg h5] at h ⊢
  exact ⟨[("error", .str "Numeric inputs required")], by simp [h, truthy]⟩

/-- C1: for every model and every POST /api/predict/:slug request that
reaches input validation (service configured, slug found, API key matching)
but lacks the field required by the model's inputType, the handler returns
HTTP 400; independently of configuration, no outbound call is made and the
database (hence every usageCount) is unchanged. -/
theorem predict_missing_input_rejected
    (env : Env) (db : Db) (req : PredictRequest) (outcome : DownstreamOutcome)
    (m : Model)
    (hfind : findOne db req.slug = some m)
    (hkey : req.apiKeyHeader = some m.apiKey)
    (hlack : lacksRequiredInput m req) :
    (predictHandler env db req outcome).forwarded = false ∧
    (predictHandler env db req outcome).newDb = db ∧
    (inferenceConfigured env = true →
      (predictHandler env db req outcome).status = 400) := by
  obtain ⟨e, he⟩ := extractInput_of_lacks m req hlack
  unfold predictHandler
  cases hc : inferenceConfigured env
  · simp
  · simp [hfind, hkey, he]

/-- Witness for C1: a concrete text model, a matching key, and a body whose
text field is absent yield 400 with no forward and no database change. -/
theorem predict_missing_input_rejected_witness :
    (predictHandler envOk dbOne (jsonReq "sentiment-0a1b2c3d" (some "mlh_k1") emptyBody)
      .failure).forwarded = false ∧
    (predictHandler envOk dbOne (jsonReq "sentiment-0a1b2c3d" (some "mlh_k1") emptyBody)
      .failure).newDb = dbOne ∧
    (predictHandler envOk dbOne (jsonReq "sentiment-0a1b2c3d" (some "mlh_k1") emptyBody)
      .failure).status = 400 := by
  have h := predict_missing_input_rejected envOk dbOne
    (jsonReq "sentiment-0a1b2c3d" (some "mlh_k1") emptyBody) .failure textModel
    (by rfl) (by rfl) (by simp [lacksRequiredInput, textModel, jsonReq, emptyBody])
  exact ⟨h.1, h.2.1, h.2.2 (by rfl)⟩

/-- C4: when the slug resolves to a model but the X-API-Key header differs
from the stored key (including an absent header), the handler answers 403
"Invalid API key" regardless of the request body, makes no outbound call
and leaves the database unchanged; the 403 itself requires only that the
configuration check passed. -/
theorem predict_bad_key_rejected
    (env : Env) (db : Db) (req : PredictRequest) (outcome : DownstreamOutcome)
    (m : Model)
    (hfind : findOne db req.slug = some m)
    (hkey : req.apiKeyHeader ≠ some m.apiKey) :
    (predictHandler env db req outcome).forwarded = false ∧
    (predictHandler env db req outcome).newDb = db ∧
    (inferenceConfigured env = true →
      (predictHandler env db req outcome).status = 403 ∧
      (predictHandler env db req outcome).body =
        [("error", .str "Invalid API key")]) := by
  unfold predictHandler
  cases hc : inferenceConfigured env
  · simp
  · simp [hfind, hkey]

/-- Witness for C4: an absent X-API-Key header on a request whose body
would pass validation still yields 403 with no forward or increment. -/
theorem predict_bad_key_rejected_witness :
    (predictHandler envOk dbOne
      (jsonReq "sentiment-0a1b2c3d" none { emptyBody with text := .str "hi" })
      .failure).forwarded = false ∧
    (predictHandler envOk dbOne
      (jsonReq "sentiment-0a1b2c3d" none { emptyBody with text := .str "hi" })
      .failure).newDb = dbOne ∧
    (predictHandler envOk dbOne
      (jsonReq "sentiment-0a1b2c3d" none { emptyBody with text := .str "hi" })
      .failure).status = 403 := by
  have h := predict_bad_key_rejected envOk dbOne
    (jsonReq "sentiment-0a1b2c3d" none { emptyBody with text := .str "hi" })
    .failure textModel (by rfl) (by simp [jsonReq])
  exact ⟨h.1, h.2.1, (h.2.2 (by rfl)).1⟩

/-- C5: a slug matching no model yields 404 "Model not found" for every
request body, with no outbound call and no database change; no request on a
nonexistent slug can observe a 400, whatever the body or configuration. -/
theorem predict_unknown_slug_404
    (env : Env) (db : Db) (req : PredictRequest) (outcome : DownstreamOutcome)
    (hfind : findOne db req.slug = none) :
    (predictHandler env db req outcome).forwarded = false ∧
    (predictHandler env db req outcome).newDb = db ∧
    (predictHandler env db req outcome).status ≠ 400 ∧
    (inferenceConfigured env = true →
      (predictHandler env db req outcome).status = 404 ∧
      (predictHandler env db req outcome).body =
        [("error", .str "Model not found")]) := by
  unfold predictHandler
  cases hc : inferenceConfigured env
  · simp
  · simp [hfind]

/-- Witness for C5: an unknown slug with a body that is invalid for every
input type still yields 404, not 400. -/
theorem predict_unknown_slug_404_witness :
    (predictHandler envOk dbOne (jsonReq "no-such-model" (some "mlh_k1") emptyBody)
      .failure).forwarded = false ∧
    (predictHandler envOk dbOne (jsonReq "no-such-model" (some "mlh_k1") emptyBody)
      .failure).newDb = dbOne ∧
    (predictHandler envOk dbOne (jsonReq "no-such-model" (some "mlh_k1") emptyBody)
      .failure).status = 404 := by
  have h := predict_unknown_slug_404 envOk dbOne
    (jsonReq "no-such-model" (some "mlh_k1") emptyBody) .failure (by rfl)
  exact ⟨h.1, h.2.1, (h.2.2.2 (by rfl)).1⟩

lemma sumUsage_cons (a : Model) (l : Db) :
    sumUsage (a :: l) = a.usageCount + sumUsage l := by
  simp [sumUsage]

/-- Incrementing the usage counter of a present id raises the total usage
sum by exactly one. -/
lemma sumUsage_incUsage (db : Db) (i : Nat) (h : ∃ x ∈ db, x.id = i) :
    sumUsage (incUsage db i) = sumUsage db + 1 := by
  induction db with
  | nil => simp at h
  | cons a as ih =>
    by_cases ha : a.id = i
    · simp [incUsage, ha, sumUsage_cons]
      omega
    · rcases h with ⟨x, hx, hxi⟩
      rcases List.mem_cons.mp hx with rfl | hmem
      · exact absurd hxi ha
      · have hrec := ih ⟨x, hmem, hxi⟩
        simp [incUsage, ha, sumUsage_cons, hrec]
        omega

/-- A key present in the tail wins against a prepended field, as in a JS
object spread where later fields override earlier ones. -/
lemma jsGet_cons_of_hasKey (k : String) (x : String × JsValue) (l : JsonBody)
    (h : hasKey k l = true) : jsGet k (x :: l) = jsGet k l := by
  unfold jsGet
  rw [List.reverse_cons, List.find?_append]
  rcases List.any_eq_true.mp h with ⟨p, hp, hpk⟩
  obtain ⟨q, hq⟩ : ∃ q, l.reverse.find? (fun p => p.1 == k) = some q := by
    have hs : (l.reverse.find? (fun p => p.1 == k)).isSome :=
      List.find?_isSome.mpr ⟨p, List.mem_reverse.mpr hp, hpk⟩
    exact Option.isSome_iff_exists.mp hs
  rw [hq]
  rfl

/-- A prepended field is visible whenever the tail does not define the same
key. -/
lemma jsGet_head_of_not_hasKey (k : String) (v : JsValue) (l : JsonBody)
    (h : hasKey k l = false) : jsGet k ((k, v) :: l) = some v := by
  unfold jsGet
  rw [List.reverse_cons, List.find?_append]
  have hnone : l.reverse.find? (fun p => p.1 == k) = none := by
    rw [List.find?_eq_none]
    intro x hx
    have hall : ∀ x ∈ l, ¬ (x.1 == k) = true := by
      simpa [hasKey, List.any_eq_true] using h
    exact hall x (List.mem_reverse.mp hx)
  rw [hnone]
  simp

/-- C2: a predict request that passes the slug lookup, API-key check and
input validation and whose forward succeeds increments the found model's
usageCount by exactly one (the total usage sum rises by exactly 1, and the
update runs once), and answers 200 with the downstream JSON body merged
after a model field holding the stored model name; downstream fields
override the model field only where the downstream body itself defines one,
so when it does not, the response's model field is the stored name and all
downstream fields are preserved. -/
theorem predict_success_increments_once
    (env : Env) (db : Db) (req : PredictRequest) (outcome : DownstreamOutcome)
    (m : Model) (fields : JsonBody) (data : JsonBody)
    (hconf : inferenceConfigured env = true)
    (hfind : findOne db req.slug = some m)
    (hkey : req.apiKeyHeader = some m.apiKey)
    (hval : extractInput m req = Sum.inr fields)
    (hout : outcome = .success data) :
    (predictHandler env db req outcome).status = 200 ∧
    (predictHandler env db req outcome).body = ("model", .str m.name) :: data ∧
    (predictHandler env db req outcome).incremented = true ∧
    (predictHandler env db req outcome).newDb = incUsage db m.id ∧
    sumUsage (predictHandler env db req outcome).newDb = sumUsage db + 1 ∧
    (hasKey "model" data = false →
      jsGet "model" (predictHandler env db req outcome).body =
        some (.str m.name)) ∧
    (∀ k, hasKey k data = true →
      jsGet k (predictHandler env db req outcome).body = jsGet k data) := by
  have hmem : m ∈ db := List.mem_of_find?_eq_some hfind
  subst hout
  have hred :
      (predictHandler env db req (.success data)).status = 200 ∧
      (predictHandler env db req (.success data)).body =
        ("model", .str m.name) :: data ∧
      (predictHandler env db req (.success data)).incremented = true ∧
      (predictHandler env db req (.success data)).newDb = incUsage db m.id := by
    unfold predictHandler
    simp [hconf, hfind, hkey, hval]
  refine ⟨hred.1, hred.2.1, hred.2.2.1, hred.2.2.2, ?_, ?_, ?_⟩
  · rw [hred.2.2.2]
    exact sumUsage_incUsage db m.id ⟨m, hmem, rfl⟩
  · intro h
    rw [hred.2.1]
    exact jsGet_head_of_not_hasKey _ _ _ h
  · intro k hk
    rw [hred.2.1]
    exact jsGet_cons_of_hasKey _ _ _ hk

/-- Witness for C2: a concrete successful forward raises usage 3 to 4 and
returns the merged body with model = "Sentiment". -/
theorem predict_success_increments_once_witness :
    (predictHandler envOk dbOne
      (jsonReq "sentiment-0a1b2c3d" (some "mlh_k1") { emptyBody with text := .str "hi" })
      (.success [("prediction", .str "positive")])).status = 200 ∧
    sumUsage (predictHandler envOk dbOne
      (jsonReq "sentiment-0a1b2c3d" (some "mlh_k1") { emptyBody with text := .str "hi" })
      (.success [("prediction", .str "positive")])).newDb = sumUsage dbOne + 1 ∧
    jsGet "model" (predictHandler envOk dbOne
      (jsonReq "sentiment-0a1b2c3d" (some "mlh_k1") { emptyBody with text := .str "hi" })
      (.success [("prediction", .str "positive")])).body =
      some (.str "Sentiment") := by
  have h := predict_success_increments_once envOk dbOne
    (jsonReq "sentiment-0a1b2c3d" (some "mlh_k1") { emptyBody with text := .str "hi" })
    (.success [("prediction", .str "positive")]) textModel
    [("text", .str "hi")] [("prediction", .str "positive")]
    (by rfl) (by rfl) (by rfl) (by rfl) rfl
  exact ⟨h.1, h.2.2.2.2.1, h.2.2.2.2.2.1 (by rfl)⟩

/-- Counterexample to C3 as stated: a downstream HTTP error whose response
body is empty gives a falsy error.response.data, so the catch block answers
500, not 502 with the body under details. The database is unchanged. -/
theorem predict_downstream_error_empty_body_500 :
    (predictHandler envOk dbOne
      (jsonReq "sentiment-0a1b2c3d" (some "mlh_k1") { emptyBody with text := .str "hi" })
      (.httpError (.str ""))).status = 500 ∧
    ¬ (predictHandler envOk dbOne
      (jsonReq "sentiment-0a1b2c3d" (some "mlh_k1") { emptyBody with text := .str "hi" })
      (.httpError (.str ""))).status = 502 ∧
    (predictHandler envOk dbOne
      (jsonReq "sentiment-0a1b2c3d" (some "mlh_k1") { emptyBody with text := .str "hi" })
      (.httpError (.str ""))).newDb = dbOne := by
  refine ⟨rfl, ?_, rfl⟩
  have h500 : (predictHandler envOk dbOne
      (jsonReq "sentiment-0a1b2c3d" (some "mlh_k1") { emptyBody with text := .str "hi" })
      (.httpError (.str ""))).status = 500 := rfl
  rw [h500]
  decide

/-- C3 (amended): after validation, a downstream HTTP error carrying a
truthy body yields 502 with "Inference service error" and the downstream
body under details; a downstream HTTP error with a falsy (empty) body, or
any other failure, yields 500 with a generic message. In every failure case
the usage update does not run and the database is unchanged, so there is no
partial-success state. -/
theorem predict_downstream_failure_no_increment
    (env : Env) (db : Db) (req : PredictRequest) (outcome : DownstreamOutcome)
    (m : Model) (fields : JsonBody)
    (hconf : inferenceConfigured env = true)
    (hfind : findOne db req.slug = some m)
    (hkey : req.apiKeyHeader = some m.apiKey)
    (hval : extractInput m req = Sum.inr fields) :
    (∀ d, truthy d = true → outcome = .httpError d →
      (predictHandler env db req outcome).status = 502 ∧
      (predictHandler env db req outcome).body =
        [("error", .str "Inference service error"), ("details", d)] ∧
      (predictHandler env db req outcome).incremented = false ∧
      (predictHandler env db req outcome).newDb = db) ∧
    (∀ d, truthy d = false → outcome = .httpError d →
      (predictHandler env db req outcome).status = 500 ∧
      (predictHandler env db req outcome).body =
        [("error", .str "Prediction failed")] ∧
      (predictHandler env db req outcome).incremented = false ∧
      (predictHandler env db req outcome).newDb = db) ∧
    (outcome = .failure →
      (predictHandler env db req outcome).status = 500 ∧
      (predictHandler env db req outcome).body =
        [("error", .str "Prediction failed")] ∧
      (predictHandler env db req outcome).incremented = false ∧
      (predictHandler env db req outcome).newDb = db) := by
  refine ⟨?_, ?_, ?_⟩
  · intro d hd hout
    subst hout
    unfold predictHandler
    simp [hconf, hfind, hkey, hval, hd]
  · intro d hd hout
    subst hout
    unfold predictHandler
    simp [hconf, hfind, hkey, hval, hd]
  · intro hout
    subst hout
    unfold predictHandler
    simp [hconf, hfind, hkey, hval]

/-- Witness for C3 (amended): a downstream 500 with a JSON error body is
relayed as 502 with that body under details and no usage change. -/
theorem predict_downstream_failure_no_increment_witness :
    (predictHandler envOk dbOne
      (jsonReq "sentiment-0a1b2c3d" (some "mlh_k1") { emptyBody with text := .str "hi" })
      (.httpError (.obj [("error", .str "boom")]))).status = 502 ∧
    (predictHandler envOk dbOne
      (jsonReq "sentiment-0a1b2c3d" (some "mlh_k1") { emptyBody with text := .str "hi" })
      (.httpError (.obj [("error", .str "boom")]))).newDb = dbOne := by
  have h := predict_downstream_failure_no_increment envOk dbOne
    (jsonReq "sentiment-0a1b2c3d" (some "mlh_k1") { emptyBody with text := .str "hi" })
    (.httpError (.obj [("error", .str "boom")])) textModel [("text", .str "hi")]
    (by rfl) (by rfl) (by rfl) (by rfl)
  have h2 := h.1 (.obj [("error", .str "boom")]) (by rfl) rfl
  exact ⟨h2.1, h2.2.2.2⟩

/-- Deleting a key removes it. -/
lemma hasKey_removeKey_self (k : String) (l : JsonBody) :
    hasKey k (removeKey k l) = false := by
  rw [hasKey, List.any_eq_false]
  intro x hx
  have hne := (List.mem_filter.mp hx).2
  simp only [bne_iff_ne, ne_eq] at hne
  simp [hne]

/-- Deleting one key introduces no other key. -/
lemma hasKey_removeKey_le (k k' : String) (l : JsonBody)
    (h : hasKey k l = false) : hasKey k (removeKey k' l) = false := by
  rw [hasKey, List.any_eq_false]
  intro x hx
  have hxl := (List.mem_filter.mp hx).1
  have hall : ∀ x ∈ l, ¬ (x.1 == k) = true := by
    simpa [hasKey, List.any_eq_true] using h
  exact hall x hxl

/-- The weights storage key never appears in a fetch-by-slug result. -/
lemma hasKey_s3_result (m : Model) :
    hasKey "s3ModelKey" (modelResultFields m) = false := by
  obtain ⟨i, u, nm, d, sl, ak, s3, rk, it, ot, sch, ic, uc, pb⟩ := m
  cases rk <;> rfl

/-- The apiKey field is present in the raw fetch-by-slug result. -/
lemma hasKey_apiKey_result (m : Model) :
    hasKey "apiKey" (modelResultFields m) = true := by
  obtain ⟨i, u, nm, d, sl, ak, s3, rk, it, ot, sch, ic, uc, pb⟩ := m
  cases rk <;> rfl

/-- C7: a GET /api/models/:slug request that finds a model gets a 200 whose
body never contains the weights storage key, and contains the apiKey field
exactly when the request carries a nonempty token cookie that jwt-verifies
to the owning user's id; every other requester receives a body without
apiKey. -/
theorem fetch_by_slug_hides_secrets
    (env : Env) (verify : String → String → Option Nat) (db : Db)
    (req : FetchRequest) (m : Model)
    (hfind : findOne db req.slug = some m) :
    (getModelBySlug env verify db req).1 = 200 ∧
    hasKey "s3ModelKey" (getModelBySlug env verify db req).2 = false ∧
    (hasKey "apiKey" (getModelBySlug env verify db req).2 = true ↔
      ∃ t, req.cookieToken = some t ∧ t ≠ "" ∧
        verify t env.jwtSecret = some m.userId) := by
  have hs3 := hasKey_s3_result m
  have hak := hasKey_apiKey_result m
  have hred : getModelBySlug env verify db req =
      (200, if (match req.cookieToken with
                | none => false
                | some tok =>
                  if tok = "" then false
                  else
                    match verify tok env.jwtSecret with
                    | some uid => uid == m.userId
                    | none => false) = true
            then modelResultFields m
            else removeKey "apiKey" (modelResultFields m)) := by
    unfold getModelBySlug
    rw [hfind]
  rw [hred]
  have hcond : ((match req.cookieToken with
                | none => false
                | some tok =>
                  if tok = "" then false
                  else
                    match verify tok env.jwtSecret with
                    | some uid => uid == m.userId
                    | none => false) = true) ↔
      (∃ t, req.cookieToken = some t ∧ t ≠ "" ∧
        verify t env.jwtSecret = some m.userId) := by
    cases hct : req.cookieToken with
    | none => simp
    | some tok =>
      by_cases htok : tok = ""
      · subst htok
        simp
      · cases hv : verify tok env.jwtSecret with
        | none => simp [htok, hv]
        | some uid => simp [htok, hv]
  refine ⟨rfl, ?_, ?_⟩
  · by_cases hb : (match req.cookieToken with
                | none => false
                | some tok =>
                  if tok = "" then false
                  else
                    match verify tok env.jwtSecret with
                    | some uid => uid == m.userId
                    | none => false) = true
    · rw [if_pos hb]
      exact hs3
    · rw [if_neg hb]
      exact hasKey_removeKey_le "s3ModelKey" "apiKey" _ hs3
  · by_cases hb : (match req.cookieToken with
                | none => false
                | some tok =>
                  if tok = "" then false
                  else
                    match verify tok env.jwtSecret with
                    | some uid => uid == m.userId
                    | none => false) = true
    · rw [if_pos hb, hak]
      exact ⟨fun _ => hcond.mp hb, fun _ => rfl⟩
    · rw [if_neg hb, hasKey_removeKey_self]
      exact ⟨fun hx => Bool.noConfusion hx, fun hx => absurd (hcond.mpr hx) hb⟩

/-- Witness for C7: an unauthenticated fetch of the concrete model gets 200
with no s3ModelKey and no apiKey field. -/
theorem fetch_by_slug_hides_secrets_witness :
    (getModelBySlug envOk (fun _ _ => none) dbOne ⟨"sentiment-0a1b2c3d", none⟩).1 = 200 ∧
    hasKey "s3ModelKey"
      (getModelBySlug envOk (fun _ _ => none) dbOne ⟨"sentiment-0a1b2c3d", none⟩).2 = false ∧
    hasKey "apiKey"
      (getModelBySlug envOk (fun _ _ => none) dbOne ⟨"sentiment-0a1b2c3d", none⟩).2 = false := by
  have h := fetch_by_slug_hides_secrets envOk (fun _ _ => none) dbOne
    ⟨"sentiment-0a1b2c3d", none⟩ textModel (by rfl)
  refine ⟨h.1, h.2.1, ?_⟩
  cases hk : hasKey "apiKey"
      (getModelBySlug envOk (fun _ _ => none) dbOne ⟨"sentiment-0a1b2c3d", none⟩).2
  · rfl
  · rcases h.2.2.mp hk with ⟨t, ht, _, _⟩
    cases ht

/-- A value never survives filtering by "differs from me". -/
lemma not_mem_filter_ne (a : String) (l : List String) :
    a ∉ l.filter (fun k => k ≠ a) := by
  intro h
  have := (List.mem_filter.mp h).2
  simp at this

/-- Counterexample to C8 as stated: deleting a concrete model passes
through a state (the one right after deleteFromS3) in which the Model row
is still present while its weights object is already deleted, so the
storage key does not reference an existing object for the whole lifetime of
the row. -/
theorem delete_storage_gone_while_row_present :
    ∃ st, st ∈ deleteModelTrace ⟨dbOne, [textModel.s3ModelKey]⟩
        "sentiment-0a1b2c3d" 7 ∧
      textModel ∈ st.db ∧ textModel.s3ModelKey ∉ st.store := by
  refine ⟨⟨dbOne, []⟩, ?_, ?_, ?_⟩
  · decide
  · decide
  · decide

/-- C8 (amended): during delete the storage delete happens before the
Model row delete: the state right after deleteFromS3 still holds the row
but no longer the weights object. Dually, the object never outlives the
row: in every state of the delete trace, once the found model has left the
database its weights key is gone from storage, and in the final state the
weights key is gone. -/
theorem delete_trace_order
    (s : SysState) (slug : String) (uid : Nat) (m : Model)
    (hfind : findOwned s.db slug uid = some m) :
    (deleteModelTrace s slug uid).get? 1 =
      some ⟨s.db, s.store.filter (fun k => k ≠ m.s3ModelKey)⟩ ∧
    (∀ st ∈ deleteModelTrace s slug uid,
      m ∉ st.db → m.s3ModelKey ∉ st.store) ∧
    (∃ last, (deleteModelTrace s slug uid).getLast? = some last ∧
      m.s3ModelKey ∉ last.store) := by
  have hmem : m ∈ s.db := List.mem_of_find?_eq_some hfind
  unfold deleteModelTrace
  rw [hfind]
  dsimp only
  cases hrk : m.s3ReadmeKey with
  | none =>
    dsimp only
    refine ⟨rfl, ?_, ?_⟩
    · intro st hst hnot
      simp only [List.mem_cons, List.not_mem_nil, or_false] at hst
      rcases hst with rfl | rfl | rfl
      · exact absurd hmem hnot
      · exact absurd hmem hnot
      · exact not_mem_filter_ne _ _
    · exact ⟨_, rfl, not_mem_filter_ne _ _⟩
  | some rk =>
    dsimp only
    refine ⟨rfl, ?_, ?_⟩
    · intro st hst hnot
      simp only [List.mem_cons, List.not_mem_nil, or_false] at hst
      rcases hst with rfl | rfl | rfl | rfl
      · exact absurd hmem hnot
      · exact absurd hmem hnot
      · exact absurd hmem hnot
      · intro hk
        exact not_mem_filter_ne _ _ (List.mem_of_mem_filter hk)
    · refine ⟨_, rfl, ?_⟩
      intro hk
      exact not_mem_filter_ne _ _ (List.mem_of_mem_filter hk)

/-- Witness for C8 (amended): the concrete delete trace has, at index 1,
the row still present with the weights object already removed. -/
theorem delete_trace_order_witness :
    (deleteModelTrace ⟨dbOne, [textModel.s3ModelKey]⟩
        "sentiment-0a1b2c3d" 7).get? 1 = some ⟨dbOne, []⟩ :=
  (delete_trace_order ⟨dbOne, [textModel.s3ModelKey]⟩
    "sentiment-0a1b2c3d" 7 textModel (by rfl)).1

/-- Every document of an incUsage result comes from a document of the input
with the same id and either the same usageCount or that count plus one. -/
lemma mem_incUsage (db : Db) (i : Nat) (x : Model) (hx : x ∈ incUsage db i) :
    ∃ m ∈ db, m.id = x.id ∧
      (x.usageCount = m.usageCount ∨ x.usageCount = m.usageCount + 1) := by
  induction db with
  | nil => simp [incUsage] at hx
  | cons a as ih =>
    by_cases ha : a.id = i
    · rw [incUsage, if_pos ha] at hx
      rcases List.mem_cons.mp hx with rfl | hmem
      · exact ⟨a, List.mem_cons_self a as, rfl, Or.inr rfl⟩
      · exact ⟨x, List.mem_cons_of_mem a hmem, rfl, Or.inl rfl⟩
    · rw [incUsage, if_neg ha] at hx
      rcases List.mem_cons.mp hx with rfl | hmem
      · exact ⟨x, List.mem_cons_self x as, rfl, Or.inl rfl⟩
      · rcases ih hmem with ⟨m, hm, hid, hc⟩
        exact ⟨m, List.mem_cons_of_mem a hm, hid, hc⟩

/-- removeById only drops documents. -/
lemma mem_removeById (db : Db) (i : Nat) (x : Model)
    (hx : x ∈ removeById db i) : x ∈ db := by
  induction db with
  | nil => simp [removeById] at hx
  | cons a as ih =>
    by_cases ha : a.id = i
    · rw [removeById, if_pos ha] at hx
      exact List.mem_cons_of_mem a hx
    · rw [removeById, if_neg ha] at hx
      rcases List.mem_cons.mp hx with rfl | hmem
      · exact List.mem_cons_self x as
      · exact List.mem_cons_of_mem a (ih hmem)

/-- The predict handler either leaves the database unchanged or, on a
successful forward past validation, increments the found model's counter
once. -/
lemma predict_newDb_cases (env : Env) (db : Db) (req : PredictRequest)
    (outcome : DownstreamOutcome) :
    (predictHandler env db req outcome).newDb = db ∨
    ∃ m, findOne db req.slug = some m ∧
      (predictHandler env db req outcome).newDb = incUsage db m.id ∧
      (predictHandler env db req outcome).incremented = true ∧
      ∃ data, outcome = .success data := by
  unfold predictHandler
  split
  · left; rfl
  · split
    · left; rfl
    · rename_i m heq
      split
      · left; rfl
      · split
        · left; rfl
        · cases outcome with
          | success data => right; exact ⟨m, heq, rfl, rfl, data, rfl⟩
          | httpError d =>
            dsimp only
            split
            · left; rfl
            · left; rfl
          | failure => left; rfl

/-- Either the usage update did not run, or the forward happened and the
downstream call succeeded. -/
lemma predict_result_cases (env : Env) (db : Db)
    (req : PredictRequest) (outcome : DownstreamOutcome) :
    (predictHandler env db req outcome).incremented = false ∨
    ((predictHandler env db req outcome).forwarded = true ∧
      ∃ data, outcome = .success data) := by
  unfold predictHandler
  split
  · left; rfl
  · split
    · left; rfl
    · rename_i m heq
      split
      · left; rfl
      · split
        · left; rfl
        · cases outcome with
          | success data => right; exact ⟨rfl, data, rfl⟩
          | httpError d =>
            dsimp only
            split
            · left; rfl
            · left; rfl
          | failure => left; rfl

/-- The usage update runs only when the forward happened and succeeded. -/
lemma predict_incremented_success (env : Env) (db : Db)
    (req : PredictRequest) (outcome : DownstreamOutcome)
    (h : (predictHandler env db req outcome).incremented = true) :
    (predictHandler env db req outcome).forwarded = true ∧
    ∃ data, outcome = .success data := by
  rcases predict_result_cases env db req outcome with hf | hok
  · rw [h] at hf
    exact Bool.noConfusion hf
  · exact hok

/-- The upload handler either leaves the database unchanged or appends one
new model whose usageCount is 0. -/
lemma upload_newDb_cases (db : Db) (req : UploadRequest) (newId : Nat)
    (r4 r24 : List Nat) (uid : Nat) :
    (uploadHandler db req newId r4 r24 uid).newDb = db ∨
    ∃ mNew, (uploadHandler db req newId r4 r24 uid).newDb = db ++ [mNew] ∧
      mNew.usageCount = 0 := by
  unfold uploadHandler
  dsimp only
  repeat' split
  all_goals first
    | (left; rfl)
    | (right; exact ⟨_, rfl, rfl⟩)

/-- The per-operation usage transition: every document after an operation
either keeps the usageCount of a same-id document of the previous database,
is a fresh upload-created document with usageCount 0, or is a same-id
document incremented by exactly one by a predict operation whose forward
succeeded. -/
lemma usage_transition (db : Db) (op : Op) (x : Model)
    (hx : x ∈ applyOp db op) :
    (∃ m ∈ db, m.id = x.id ∧ x.usageCount = m.usageCount) ∨
    ((∃ req newId r4 r24 uid, op = .upload req newId r4 r24 uid) ∧
      x.usageCount = 0) ∨
    ((∃ env req data, op = .predict env req (.success data) ∧
        (predictHandler env db req (.success data)).incremented = true) ∧
      ∃ m ∈ db, m.id = x.id ∧ x.usageCount = m.usageCount + 1) := by
  cases op with
  | upload req newId r4 r24 uid =>
    rcases upload_newDb_cases db req newId r4 r24 uid with hsame | ⟨mNew, hnew, hzero⟩
    · rw [applyOp, hsame] at hx
      exact Or.inl ⟨x, hx, rfl, rfl⟩
    · rw [applyOp, hnew] at hx
      rcases List.mem_append.mp hx with hmem | hsingle
      · exact Or.inl ⟨x, hmem, rfl, rfl⟩
      · rcases List.mem_singleton.mp hsingle with rfl
        exact Or.inr (Or.inl ⟨⟨req, newId, r4, r24, uid, rfl⟩, hzero⟩)
  | predict env req outcome =>
    rcases predict_newDb_cases env db req outcome with hsame |
      ⟨m, hfind, hinc, hincr, data, hdata⟩
    · rw [applyOp, hsame] at hx
      exact Or.inl ⟨x, hx, rfl, rfl⟩
    · subst hdata
      rw [applyOp, hinc] at hx
      rcases mem_incUsage db m.id x hx with ⟨m2, hm2, hid, hc | hc⟩
      · exact Or.inl ⟨m2, hm2, hid, hc⟩
      · exact Or.inr (Or.inr ⟨⟨env, req, data, rfl, hincr⟩, m2, hm2, hid, hc⟩)
  | listPublic => exact Or.inl ⟨x, hx, rfl, rfl⟩
  | listMine uid => exact Or.inl ⟨x, hx, rfl, rfl⟩
  | fetchBySlug slug => exact Or.inl ⟨x, hx, rfl, rfl⟩
  | fetchReadme slug => exact Or.inl ⟨x, hx, rfl, rfl⟩
  | deleteModel slug uid =>
    rw [applyOp, deleteDb] at hx
    cases hfind : findOwned db slug uid with
    | none =>
      rw [hfind] at hx
      exact Or.inl ⟨x, hx, rfl, rfl⟩
    | some m =>
      rw [hfind] at hx
      exact Or.inl ⟨x, mem_removeById db m.id x hx, rfl, rfl⟩

/-- C6: over all databases reachable through the API from the empty
collection, every usageCount is non-negative; a document created by an
upload starts at usageCount 0; and the only way any document's usageCount
ever changes is an increment by exactly 1 performed by a predict operation
whose forward succeeded — uploads, reads, deletes and failed predictions
never alter an existing counter. -/
theorem usage_counter_invariant :
    (∀ db, Reachable db → ∀ m ∈ db, 0 ≤ m.usageCount) ∧
    (∀ db op x, x ∈ applyOp db op →
      (∃ m ∈ db, m.id = x.id ∧ x.usageCount = m.usageCount) ∨
      ((∃ req newId r4 r24 uid, op = .upload req newId r4 r24 uid) ∧
        x.usageCount = 0) ∨
      ((∃ env req data, op = .predict env req (.success data) ∧
          (predictHandler env db req (.success data)).incremented = true) ∧
        ∃ m ∈ db, m.id = x.id ∧ x.usageCount = m.usageCount + 1)) ∧
    (∀ env db req outcome,
      (predictHandler env db req outcome).incremented = true →
      (predictHandler env db req outcome).forwarded = true ∧
      ∃ data, outcome = .success data) := by
  refine ⟨?_, ?_, ?_⟩
  · intro db hdb
    induction hdb with
    | init => intro m hm; simp at hm
    | step op hprev ih =>
      intro m hm
      rcases usage_transition _ op m hm with
        ⟨m2, hm2, _, hc⟩ | ⟨_, hc⟩ | ⟨_, m2, hm2, _, hc⟩
      · rw [hc]; exact ih m2 hm2
      · rw [hc]
      · rw [hc]
        have := ih m2 hm2
        omega
  · exact fun db op x hx => usage_transition db op x hx
  · exact fun env db req outcome h => predict_incremented_success env db req outcome h

/-- A concrete upload request used to exhibit a reachable database. -/
def uploadReq0 : UploadRequest :=
  ⟨some "My Model", none, some "text", none, some ⟨"model.h5", "weights"⟩,
   none, none⟩

/-- A concrete upload operation. -/
def op0 : Op :=
  .upload uploadReq0 1 [0, 0, 0, 0]
    [0, 0, 0, 0, 0, 0, 0, 0, 0, 0, 0, 0, 0, 0, 0, 0, 0, 0, 0, 0, 0, 0, 0, 0] 7

/-- The model document created by the concrete upload operation. -/
def uploadedModel0 : Model :=
  { id := 1, userId := 7, name := "My Model", description := "",
    slug := "my-model-00000000",
    apiKey := "mlh_000000000000000000000000000000000000000000000000",
    s3ModelKey := "models/my-model-00000000/model.h5",
    s3ReadmeKey := none, inputType := "text", outputType := "classification",
    inputSchema := [], inputCount := 0, usageCount := 0, isPublic := true }

/-- Witness for C6: in the concrete reachable one-model database created by
an upload, the stored usage counter is non-negative. -/
theorem usage_counter_invariant_witness :
    0 ≤ uploadedModel0.usageCount :=
  usage_counter_invariant.1 (applyOp [] op0)
    (Reachable.step op0 Reachable.init)
    uploadedModel0
    (by rw [show applyOp [] op0 = [uploadedModel0] from rfl]
        exact List.mem_cons_self _ _)

/-- Whether the last character of a list is a non-slug character. -/
def lastNonAlnum (cs : List Char) : Bool :=
  match cs.getLast? with
  | some c => !isSlugChar c
  | none => false

lemma lastNonAlnum_cons (c : Char) (cs : List Char) (h : cs ≠ []) :
    lastNonAlnum (c :: cs) = lastNonAlnum cs := by
  cases cs with
  | nil => exact absurd rfl h
  | cons b bs => simp [lastNonAlnum]

lemma alnumWordsGo_cons (c : Char) (cs acc : List Char) :
    alnumWordsGo (c :: cs) acc =
      if isSlugChar c then alnumWordsGo cs (c :: acc)
      else
        match acc with
        | [] => alnumWordsGo cs []
        | a :: acc => (a :: acc).reverse :: alnumWordsGo cs [] := rfl

lemma collapseGo_cons (c : Char) (cs : List Char) (inRun : Bool) :
    collapseGo (c :: cs) inRun =
      if isSlugChar c then c :: collapseGo cs false
      else if inRun then collapseGo cs true
      else '-' :: collapseGo cs true := rfl

/-- A run in progress always produces at least one word. -/
lemma alnumWordsGo_ne_nil (cs : List Char) (a : Char) (acc : List Char) :
    alnumWordsGo cs (a :: acc) ≠ [] := by
  induction cs generalizing a acc with
  | nil => simp [alnumWordsGo]
  | cons c cs ih =>
    rw [alnumWordsGo_cons]
    by_cases hc : isSlugChar c
    · rw [if_pos hc]
      exact ih c (a :: acc)
    · rw [if_neg hc]
      simp

/-- If no word is produced from an empty accumulator, every character is a
non-slug character. -/
lemma alnumWordsGo_nil_all (cs : List Char)
    (h : alnumWordsGo cs [] = []) : ∀ x ∈ cs, isSlugChar x = false := by
  induction cs with
  | nil => intro x hx; cases hx
  | cons c cs ih =>
    rw [alnumWordsGo_cons] at h
    by_cases hc : isSlugChar c
    · rw [if_pos hc] at h
      exact absurd h (alnumWordsGo_ne_nil cs c [])
    · rw [if_neg hc] at h
      dsimp only at h
      intro x hx
      rcases List.mem_cons.mp hx with rfl | hmem
      · simpa using hc
      · exact ih h x hmem

/-- Every produced word is nonempty and consists of slug characters. -/
lemma alnumWordsGo_good (cs : List Char) (acc : List Char)
    (hacc : ∀ x ∈ acc, isSlugChar x = true) :
    ∀ w ∈ alnumWordsGo cs acc, w ≠ [] ∧ ∀ x ∈ w, isSlugChar x = true := by
  induction cs generalizing acc with
  | nil =>
    cases acc with
    | nil => intro w hw; cases hw
    | cons a acc =>
      intro w hw
      rcases List.mem_singleton.mp hw with rfl
      refine ⟨by simp, ?_⟩
      intro x hx
      exact hacc x (List.mem_reverse.mp hx)
  | cons c cs ih =>
    rw [alnumWordsGo_cons]
    by_cases hc : isSlugChar c
    · rw [if_pos hc]
      exact ih (c :: acc) (by
        intro x hx
        rcases List.mem_cons.mp hx with rfl | hmem
        · exact hc
        · exact hacc x hmem)
    · rw [if_neg hc]
      cases acc with
      | nil => exact ih [] (by intro x hx; cases hx)
      | cons a acc =>
        dsimp only
        intro w hw
        rcases List.mem_cons.mp hw with rfl | hmem
        · refine ⟨by simp, ?_⟩
          intro x hx
          exact hacc x (List.mem_reverse.mp hx)
        · exact ih [] (by intro x hx; cases hx) w hmem

lemma joinH_cons (w : List Char) (ws : List (List Char)) (h : ws ≠ []) :
    joinH (w :: ws) = w ++ '-' :: joinH ws := by
  cases ws with
  | nil => exact absurd rfl h
  | cons x xs => rfl

/-- The run-collapsing pass in the initial state equals the claim-side
words joined by hyphens, with a trailing hyphen exactly when the input ends
in a non-slug run and produced at least one word; the in-run state carries
the pending word in front. -/
lemma collapseGo_eq_words (cs : List Char) :
    (collapseGo cs true =
      joinH (alnumWordsGo cs []) ++
        (if alnumWordsGo cs [] ≠ [] ∧ lastNonAlnum cs = true then ['-'] else [])) ∧
    (∀ (a : Char) (acc : List Char),
      (a :: acc).reverse ++ collapseGo cs false =
        joinH (alnumWordsGo cs (a :: acc)) ++
          (if lastNonAlnum cs = true then ['-'] else [])) := by
  induction cs with
  | nil =>
    refine ⟨by simp [collapseGo, alnumWordsGo, joinH, lastNonAlnum], ?_⟩
    intro a acc
    simp [collapseGo, alnumWordsGo, joinH, lastNonAlnum]
  | cons c cs ih =>
    obtain ⟨ihA, ihB⟩ := ih
    constructor
    · -- the section-start (true) state for c :: cs
      rw [collapseGo_cons, alnumWordsGo_cons]
      by_cases hc : isSlugChar c
      · rw [if_pos hc, if_pos hc]
        have hB := ihB c []
        simp only [List.reverse_singleton, List.singleton_append] at hB
        rw [hB]
        have hne : alnumWordsGo cs [c] ≠ [] := alnumWordsGo_ne_nil cs c []
        cases cs with
        | nil => simp [lastNonAlnum, hc, hne]
        | cons d ds =>
          rw [lastNonAlnum_cons c (d :: ds) (by simp)]
          simp [hne]
      · rw [if_neg hc, if_neg hc]
        dsimp only
        rw [ihA]
        cases cs with
        | nil => simp [lastNonAlnum, alnumWordsGo, joinH]
        | cons d ds =>
          rw [lastNonAlnum_cons c (d :: ds) (by simp)]
          simp
    · -- the in-run (false) state for c :: cs
      intro a acc
      rw [collapseGo_cons, alnumWordsGo_cons]
      by_cases hc : isSlugChar c
      · rw [if_pos hc, if_pos hc]
        have hB := ihB c (a :: acc)
        have hshift : (a :: acc).reverse ++ c :: collapseGo cs false =
            (c :: a :: acc).reverse ++ collapseGo cs false := by
          simp
        rw [hshift, hB]
        cases cs with
        | nil => simp [lastNonAlnum, hc]
        | cons d ds => rw [lastNonAlnum_cons c (d :: ds) (by simp)]
      · rw [if_neg hc, if_neg hc]
        dsimp only
        cases hW : alnumWordsGo cs [] with
        | nil =>
          have hall := alnumWordsGo_nil_all cs hW
          have htrue : collapseGo cs true = [] := by
            rw [ihA, hW]
            simp [joinH]
          rw [htrue]
          have hlastc : lastNonAlnum (c :: cs) = true := by
            cases cs with
            | nil => simp [lastNonAlnum, hc]
            | cons d ds =>
              rw [lastNonAlnum_cons c (d :: ds) (by simp)]
              have hmem : (d :: ds).getLast (by simp) ∈ (d :: ds) :=
                List.getLast_mem _
              have hlit := hall _ hmem
              rw [lastNonAlnum, List.getLast?_eq_getLast (d :: ds) (by simp)]
              simp [hlit]
          rw [hlastc]
          simp [joinH]
        | cons w ws =>
          have hne : alnumWordsGo cs [] ≠ [] := by rw [hW]; simp
          have htrue := ihA
          rw [hW] at htrue
          rw [htrue]
          rw [joinH_cons _ (w :: ws) (by simp)]
          cases cs with
          | nil => exact absurd hW (by simp [alnumWordsGo])
          | cons d ds =>
            rw [lastNonAlnum_cons c (d :: ds) (by simp)]
            simp only [ne_eq, List.cons_ne_nil, not_false_iff, true_and]
            cases hl : lastNonAlnum (d :: ds) <;> simp

/-- Starting in the out-of-run state prepends one hyphen exactly when the
input starts with a non-slug character. -/
lemma collapseGo_false_eq (cs : List Char) :
    collapseGo cs false =
      (match cs with
       | [] => ([] : List Char)
       | c :: _ => if isSlugChar c then [] else ['-']) ++ collapseGo cs true := by
  cases cs with
  | nil => rfl
  | cons c t =>
    by_cases hc : isSlugChar c
    · simp [collapseGo_cons, hc]
    · simp [collapseGo_cons, hc]

/-- A nonempty list of good words joins to a list starting with a slug
character. -/
lemma joinH_head (W : List (List Char))
    (hgood : ∀ w ∈ W, w ≠ [] ∧ ∀ x ∈ w, isSlugChar x = true)
    (hW : W ≠ []) :
    ∃ x rest, joinH W = x :: rest ∧ isSlugChar x = true := by
  cases W with
  | nil => exact absurd rfl hW
  | cons w ws =>
    obtain ⟨hne, hall⟩ := hgood w (List.mem_cons_self w ws)
    cases hw : w with
    | nil => exact absurd hw hne
    | cons x rest =>
      have hx : isSlugChar x = true := hall x (by rw [hw]; simp)
      cases ws with
      | nil => exact ⟨x, rest, by simp [joinH, hw], hx⟩
      | cons v vs =>
        refine ⟨x, rest ++ '-' :: joinH (v :: vs), ?_, hx⟩
        rw [joinH_cons (x :: rest) (v :: vs) (by simp)]
        simp

/-- A nonempty list of good words joins to a list ending with a slug
character. -/
lemma joinH_last (W : List (List Char))
    (hgood : ∀ w ∈ W, w ≠ [] ∧ ∀ x ∈ w, isSlugChar x = true)
    (hW : W ≠ []) :
    ∃ l, (joinH W).getLast? = some l ∧ isSlugChar l = true := by
  induction W with
  | nil => exact absurd rfl hW
  | cons w ws ih =>
    cases ws with
    | nil =>
      obtain ⟨hne, hall⟩ := hgood w (List.mem_cons_self w [])
      refine ⟨w.getLast hne, ?_, hall _ (List.getLast_mem hne)⟩
      simp [joinH, List.getLast?_eq_getLast w hne]
    | cons v vs =>
      obtain ⟨l, hl, hls⟩ := ih
        (fun u hu => hgood u (List.mem_cons_of_mem w hu)) (by simp)
      have hnn : joinH (v :: vs) ≠ [] := by
        intro hnil
        rw [hnil] at hl
        cases hl
      refine ⟨l, ?_, hls⟩
      rw [joinH_cons w (v :: vs) (by simp)]
      rw [List.getLast?_append]
      cases hj : joinH (v :: vs) with
      | nil => exact absurd hj hnn
      | cons j js =>
        rw [hj] at hl
        simp [List.getLast?_cons_cons, hl]

/-- Stripping one leading and one trailing hyphen from an optional-hyphen
wrapping of a body that starts and ends with non-hyphen characters returns
the body. -/
lemma stripEdge_wrap (body leadL trailL : List Char)
    (hlead : leadL = [] ∨ leadL = ['-'])
    (htrail : trailL = [] ∨ trailL = ['-'])
    (x : Char) (rest : List Char) (hbody : body = x :: rest) (hx : x ≠ '-')
    (l : Char) (hl : body.getLast? = some l) (hlne : l ≠ '-') :
    stripEdgeHyphens (leadL ++ (body ++ trailL)) = body := by
  have hstep : ∀ s1, s1 = body ++ trailL →
      (match s1.getLast? with
       | some c => if c = '-' then s1.dropLast else s1
       | none => s1) = body := by
    intro s1 hs1
    rcases htrail with rfl | rfl
    · rw [hs1, List.append_nil, hl]
      dsimp only
      rw [if_neg hlne]
    · rw [hs1, List.getLast?_concat]
      dsimp only
      rw [if_pos rfl]
      simp
  have hcons : body ++ trailL = x :: (rest ++ trailL) := by
    rw [hbody]
    rfl
  rcases hlead with rfl | rfl
  · rw [List.nil_append]
    unfold stripEdgeHyphens
    rw [hcons]
    dsimp only
    rw [if_neg hx]
    rw [← hcons]
    exact hstep _ rfl
  · unfold stripEdgeHyphens
    rw [List.singleton_append]
    dsimp only
    rw [if_pos rfl]
    exact hstep _ rfl

/-- The code's slug base (lowercase, collapse non-alphanumeric runs to
single hyphens, strip edge hyphens) equals the claim-side description:
the maximal alphanumeric runs of the lowercased name joined by single
hyphens. -/
lemma slugBase_eq_spec (name : String) : slugBase name = slugifySpec name := by
  unfold slugBase slugifySpec
  congr 1
  generalize (lowerStr name).data = cs
  rw [collapseGo_false_eq cs, (collapseGo_eq_words cs).1]
  cases hW : alnumWordsGo cs [] with
  | nil =>
    rw [if_neg (by simp)]
    simp only [joinH, List.append_nil]
    cases cs with
    | nil => rfl
    | cons c t =>
      dsimp only
      by_cases hc : isSlugChar c
      · rw [if_pos hc]
        rfl
      · rw [if_neg hc]
        rfl
  | cons w ws =>
    have hgood := alnumWordsGo_good cs [] (by intro x hx; cases hx)
    rw [hW] at hgood
    obtain ⟨x, rest, hhead, hxs⟩ := joinH_head (w :: ws) hgood (by simp)
    obtain ⟨l, hlast, hls⟩ := joinH_last (w :: ws) hgood (by simp)
    have hxne : x ≠ '-' := by
      intro h
      rw [h] at hxs
      exact absurd hxs (by decide)
    have hlne : l ≠ '-' := by
      intro h
      rw [h] at hls
      exact absurd hls (by decide)
    apply stripEdge_wrap (joinH (w :: ws)) _ _ ?_ ?_ x rest hhead hxne l hlast hlne
    · cases cs with
      | nil => exact Or.inl rfl
      | cons c t =>
        dsimp only
        by_cases hc : isSlugChar c
        · rw [if_pos hc]
          exact Or.inl rfl
        · rw [if_neg hc]
          exact Or.inr rfl
    · by_cases ht : (w :: ws ≠ [] ∧ lastNonAlnum cs = true)
      · rw [if_pos ht]
        exact Or.inr rfl
      · rw [if_neg ht]
        exact Or.inl rfl

lemma bytesToHexCs_length (bs : List Nat) :
    (bytesToHexCs bs).length = 2 * bs.length := by
  induction bs with
  | nil => rfl
  | cons b bs ih =>
    rw [bytesToHexCs]
    simp only [List.length_cons, ih]
    omega

lemma hexDigit_lt_mem : ∀ n < 16, hexDigit n ∈ "0123456789abcdef".data := by
  decide

lemma hexDigit_inj : ∀ n < 16, ∀ m < 16, hexDigit n = hexDigit m → n = m := by
  decide

/-- Hex rendering is injective on byte lists of equal length. -/
lemma bytesToHexCs_inj (bs₁ bs₂ : List Nat)
    (h₁ : ∀ b ∈ bs₁, b < 256) (h₂ : ∀ b ∈ bs₂, b < 256)
    (hlen : bs₁.length = bs₂.length)
    (heq : bytesToHexCs bs₁ = bytesToHexCs bs₂) : bs₁ = bs₂ := by
  induction bs₁ generalizing bs₂ with
  | nil =>
    cases bs₂ with
    | nil => rfl
    | cons b bs => cases hlen
  | cons b bs ih =>
    cases bs₂ with
    | nil => cases hlen
    | cons b2 bs2 =>
      rw [bytesToHexCs, bytesToHexCs] at heq
      have hb : b < 256 := h₁ b (List.mem_cons_self b bs)
      have hb2 : b2 < 256 := h₂ b2 (List.mem_cons_self b2 bs2)
      have e1 : hexDigit (b % 256 / 16) = hexDigit (b2 % 256 / 16) :=
        (List.cons.injEq _ _ _ _ ▸ heq).1
      have e2 : hexDigit (b % 16) = hexDigit (b2 % 16) := by
        have := (List.cons.injEq _ _ _ _ ▸ heq).2
        exact (List.cons.injEq _ _ _ _ ▸ this).1
      have e3 : bytesToHexCs bs = bytesToHexCs bs2 := by
        have := (List.cons.injEq _ _ _ _ ▸ heq).2
        exact (List.cons.injEq _ _ _ _ ▸ this).2
      have hd1 : b % 256 / 16 = b2 % 256 / 16 :=
        hexDigit_inj _ (by omega) _ (by omega) e1
      have hd2 : b % 16 = b2 % 16 :=
        hexDigit_inj _ (by omega) _ (by omega) e2
      have hbb : b = b2 := by omega
      have hbs : bs = bs2 :=
        ih bs2 (fun x hx => h₁ x (List.mem_cons_of_mem b hx))
          (fun x hx => h₂ x (List.mem_cons_of_mem b2 hx))
          (by simpa using hlen) e3
      rw [hbb, hbs]

/-- Counterexample to C9 as stated: an upload without a model file yields
400 and creates nothing (no slug at all), and two uploads of the same name
whose 4 random bytes coincide produce the same slug, so the second
Model.create hits the unique index and the handler answers 500 — a
duplicate-key failure under concurrent uploads of the same name is
possible. -/
theorem upload_duplicate_and_missing_file_cex :
    (uploadHandler [uploadedModel0] uploadReq0 2 [0, 0, 0, 0]
      (List.replicate 24 0) 7).status = 500 ∧
    (uploadHandler [uploadedModel0] uploadReq0 2 [0, 0, 0, 0]
      (List.replicate 24 0) 7).newDb = [uploadedModel0] ∧
    generateSlug "My Model" [0, 0, 0, 0] = uploadedModel0.slug ∧
    (uploadHandler [] { uploadReq0 with modelFile := none } 1 [0, 0, 0, 0]
      (List.replicate 24 0) 7).status = 400 ∧
    (uploadHandler [] { uploadReq0 with modelFile := none } 1 [0, 0, 0, 0]
      (List.replicate 24 0) 7).newDb = [] := by
  refine ⟨?_, ?_, ?_, ?_, ?_⟩ <;> decide

/-- C9 (amended): the generated slug is the claim's slugification of the
name (lowercase, non-alphanumeric runs to single hyphens, edge hyphens
stripped) followed by a hyphen and the hex of the 4 random bytes — 8
lowercase hex characters; an upload without a model file is rejected with
400 and creates no document; and two uploads receive distinct slugs
whenever their 4 random bytes differ, even for identical names, so no
duplicate-key failure can arise in that case. -/
theorem upload_slug_generation
    (db : Db) (req : UploadRequest) (newId : Nat) (r4 r24 : List Nat)
    (uid : Nat) :
    (req.modelFile = none →
      (uploadHandler db req newId r4 r24 uid).status = 400 ∧
      (uploadHandler db req newId r4 r24 uid).newDb = db) ∧
    (∀ name, generateSlug name r4 = slugifySpec name ++ "-" ++ bytesToHex r4) ∧
    (r4.length = 4 → (bytesToHex r4).length = 8) ∧
    (∀ c ∈ (bytesToHex r4).data, c ∈ "0123456789abcdef".data) ∧
    (∀ n₁ n₂ r₂, r4.length = 4 → r₂.length = 4 →
      (∀ b ∈ r4, b < 256) → (∀ b ∈ r₂, b < 256) → r4 ≠ r₂ →
      generateSlug n₁ r4 ≠ generateSlug n₂ r₂) := by
  refine ⟨?_, ?_, ?_, ?_, ?_⟩
  · intro h
    unfold uploadHandler
    rw [h]
    exact ⟨rfl, rfl⟩
  · intro name
    unfold generateSlug
    rw [slugBase_eq_spec]
  · intro h
    show (bytesToHexCs r4).length = 8
    rw [bytesToHexCs_length, h]
  · intro c hc
    show c ∈ "0123456789abcdef".data
    induction r4 with
    | nil => cases hc
    | cons b bs ih =>
      rcases List.mem_cons.mp hc with rfl | hc2
      · exact hexDigit_lt_mem _ (by omega)
      · rcases List.mem_cons.mp hc2 with rfl | hc3
        · exact hexDigit_lt_mem _ (by omega)
        · exact ih hc3
  · intro n₁ n₂ r₂ hl1 hl2 hb1 hb2 hne heq
    apply hne
    have hdata := congrArg String.data heq
    simp only [generateSlug, String.data_append] at hdata
    have hsplit : (slugBase n₁).data ++ ('-' :: bytesToHexCs r4) =
        (slugBase n₂).data ++ ('-' :: bytesToHexCs r₂) := by
      simpa using hdata
    have hlen9 : ('-' :: bytesToHexCs r4).length =
        ('-' :: bytesToHexCs r₂).length := by
      simp [bytesToHexCs_length, hl1, hl2]
    have hcons := List.append_inj_right' hsplit hlen9
    have hhex : bytesToHexCs r4 = bytesToHexCs r₂ := by
      injection hcons
    exact bytesToHexCs_inj r4 r₂ hb1 hb2 (by rw [hl1, hl2]) hhex

/-- Witness for C9 (amended): a concrete missing-file upload is rejected
with 400 and creates nothing, and the concrete slug for "My Model" has the
claimed shape. -/
theorem upload_slug_generation_witness :
    (uploadHandler [] { uploadReq0 with modelFile := none } 1
      [222, 173, 190, 239] (List.replicate 24 0) 7).status = 400 ∧
    (uploadHandler [] { uploadReq0 with modelFile := none } 1
      [222, 173, 190, 239] (List.replicate 24 0) 7).newDb = [] ∧
    generateSlug "My Model" [222, 173, 190, 239] =
      slugifySpec "My Model" ++ "-" ++ bytesToHex [222, 173, 190, 239] ∧
    (bytesToHex [222, 173, 190, 239]).length = 8 ∧
    generateSlug "My Model" [222, 173, 190, 239] ≠
      generateSlug "My Model" [0, 0, 0, 0] := by
  have h := upload_slug_generation [] { uploadReq0 with modelFile := none } 1
    [222, 173, 190, 239] (List.replicate 24 0) 7
  refine ⟨(h.1 rfl).1, (h.1 rfl).2, h.2.1 "My Model", h.2.2.1 rfl, ?_⟩
  exact h.2.2.2.2 "My Model" "My Model" [0, 0, 0, 0] rfl rfl
    (by decide) (by decide) (by decide)

/-- The line loop equals, line by line, the section annotation followed by
the independent per-line parser: an entry arises only from a line flagged
as lying inside an Inputs/Parameters/Features section. -/
lemma parseLines_eq_flags (lines : List String) (inSec : Bool) :
    parseLines lines inSec =
      (sectionFlags lines inSec).filterMap
        (fun p => if p.2 then sectionLineEntry p.1 else none) := by
  induction lines generalizing inSec with
  | nil => rfl
  | cons l ls ih =>
    rw [parseLines, sectionFlags]
    by_cases h1 : isInputsHeading l
    · simp [h1, ih]
    · cases inSec with
      | false => simp [h1, ih]
      | true =>
        by_cases hH : isHeadingLine l
        · simp [h1, hH, ih]
        · cases hE : sectionLineEntry l with
          | none => simp [h1, hH, hE, ih]
          | some e => simp [h1, hH, hE, ih]

/-- C10: parseReadmeForInputs is a pure line-oriented function: it equals
the composition of annotating each line with membership in an
Inputs/Parameters/Features section (ended by the next heading) and an
independent per-line parser; that per-line parser turns a bullet line into
its entry with the type defaulting to "number" and the description to "",
turns a table row into its entry, and yields nothing for separator rows,
for a table header row named "name", and (by the annotation) for every line
outside such a section. -/
theorem parse_readme_characterization :
    (∀ content, parseReadmeForInputs content =
      (sectionFlags (splitNl content.data []) false).filterMap
        (fun p => if p.2 then sectionLineEntry p.1 else none)) ∧
    sectionLineEntry "- age (number): years of age" =
      some ⟨"age", "number", "years of age"⟩ ∧
    sectionLineEntry "- age: years" = some ⟨"age", "number", "years"⟩ ∧
    sectionLineEntry "- age" = some ⟨"age", "number", ""⟩ ∧
    sectionLineEntry "| age | number | years |" =
      some ⟨"age", "number", "years"⟩ ∧
    sectionLineEntry "---" = none ∧
    sectionLineEntry "| --- | --- | --- |" = none ∧
    sectionLineEntry "| name | type | description |" = none ∧
    parseReadmeForInputs "- age: years" = [] ∧
    parseReadmeForInputs "# Inputs\n- age (number): years\n# Usage\n- other: x" =
      [⟨"age", "number", "years"⟩] := by
  refine ⟨?_, ?_, ?_, ?_, ?_, ?_, ?_, ?_, ?_, ?_⟩
  · intro content
    exact parseLines_eq_flags (splitNl content.data []) false
  all_goals decide

end Modelflow
